import Mathlib

/-!
Verification of the file-to-url FileHandler pipeline.

The development shallowly embeds the FileHandler class: byte buffers are
lists of naturals, the external image codec (sharp), the network fetch and
the filesystem are explicit collaborator records, a possibly-null mime type
is an Option String, and fallible steps return Except values.
-/

namespace FileToUrl

/-- Byte buffers (Node Buffer contents); every real byte is below 256. -/
abbrev Bytes := List Nat

/-- Image container metadata produced by the codec (sharp metadata call):
decoded width, height and container format. -/
structure Meta where
  width : Nat
  height : Nat
  format : String
deriving DecidableEq

/-- Modelled from the spec: the external binary image codec collaborator
(sharp), which is not part of this repository.  decode returns container
metadata, or none when the bytes cannot be decoded (the codec throws);
encode re-encodes bytes at the requested dimensions, container format and
quality and returns the new bytes. -/
structure Codec where
  decode : Bytes → Option Meta
  encode : Bytes → Nat → Nat → String → Nat → Bytes

/-- The resolved configuration record built by the FileHandler constructor. -/
structure Config where
  maxWidth : Nat
  maxHeight : Nat
  quality : Nat
  format : String
  skipImageOptimization : Bool
deriving DecidableEq

/-- The caller-supplied options object: each field may be absent
(undefined / null) or present with a possibly falsy value. -/
structure Options where
  maxWidth : Option Nat
  maxHeight : Option Nat
  quality : Option Nat
  format : Option String
  skipImageOptimization : Option Bool

/-- JavaScript `v || d` for numbers: 0 (falsy) and an absent value both
fall back to the default. -/
def jsOrNat : Option Nat → Nat → Nat
  | some n, d => if n = 0 then d else n
  | none, d => d

/-- JavaScript `v || d` for strings: the empty string (falsy) and an absent
value both fall back to the default. -/
def jsOrString : Option String → String → String
  | some s, d => if s = "" then d else s
  | none, d => d

/-- JavaScript `v || false` for booleans. -/
def jsOrBool : Option Bool → Bool
  | some b => b
  | none => false

/-- The FileHandler constructor: builds the options record with
`options.x || default` for every field. -/
def mkConfig (o : Options) : Config where
  maxWidth := jsOrNat o.maxWidth 500
  maxHeight := jsOrNat o.maxHeight 500
  quality := jsOrNat o.quality 90
  format := jsOrString o.format "jpeg"
  skipImageOptimization := jsOrBool o.skipImageOptimization

deriving instance DecidableEq for Except

/-- The normalized asset held by the handler after processInput:
this.buffer and this.mimeType (null when the remote response had no
content-type header). -/
structure Asset where
  buffer : Bytes
  mimeType : Option String
deriving DecidableEq

/-- Models JavaScript String.prototype.startsWith. -/
def jsStartsWith (s p : String) : Bool := p.data.isPrefixOf s.data

/-- isImage: `this.mimeType?.startsWith('image/')`; a null mimeType makes
the optional chain produce a falsy value. -/
def isImage : Option String → Bool
  | some s => jsStartsWith s "image/"
  | none => false

/-- The error taxonomy of the pipeline: the explicit throw for an
unrecognized input shape, and the codec decode failure during transcode. -/
inductive PipelineError where
  | unsupportedInput
  | codecError
deriving DecidableEq

/-- Modelled from the spec: sharp resize with fit inside and
withoutEnlargement (an external codec capability).  An image already within
the bounds is untouched; otherwise it is scaled down preserving the aspect
ratio (floor rounding) so that both dimensions fit inside the bounds. -/
def fitInside (w h maxW maxH : Nat) : Nat × Nat :=
  if w ≤ maxW ∧ h ≤ maxH then (w, h)
  else if w * maxH ≤ h * maxW then (w * maxH / h, maxH)
  else (maxW, h * maxW / w)

/-- The dimensions the optimization step requests from the codec: the
resize call is issued only when the decoded width or height exceeds the
configured maximum; otherwise the original dimensions are kept. -/
def targetDims (cfg : Config) (w h : Nat) : Nat × Nat :=
  if cfg.maxWidth < w ∨ cfg.maxHeight < h then
    fitInside w h cfg.maxWidth cfg.maxHeight
  else (w, h)

/-- optimizeImage: decode metadata (a decode failure propagates as a codec
error), conditionally resize, then always re-encode to the configured
format at the configured quality, and rewrite the mime type to the target
format. -/
def optimizeImage (c : Codec) (cfg : Config) (buffer : Bytes) :
    Except PipelineError Asset :=
  match c.decode buffer with
  | none => .error .codecError
  | some m =>
    let dims := targetDims cfg m.width m.height
    .ok ⟨c.encode buffer dims.1 dims.2 cfg.format cfg.quality,
         some ("image/" ++ cfg.format)⟩

/-- detectMimeType: try a codec metadata decode; on success report
`image/<format>`, on any failure (the try/catch) fall back to
application/octet-stream. -/
def detectMimeType (c : Codec) (b : Bytes) : String :=
  match c.decode b with
  | some m => "image/" ++ m.format
  | none => "application/octet-stream"

/-- The external I/O collaborators of the pipeline: the codec, the network
fetch (body bytes plus the content-type header, which may be absent), the
filesystem read, and the mime-types extension lookup (which reports
failure for an unknown extension). -/
structure Env where
  codec : Codec
  fetch : String → Bytes × Option String
  readFile : String → Bytes
  mimeLookup : String → Option String

/-- The five recognized input shapes of processInput, plus a constructor
standing for every other JavaScript value (the final else branch). -/
inductive Input where
  | str (s : String)
  | buffer (b : Bytes)
  | stream (chunks : List Bytes)
  | blob (data : Bytes) (ty : String)
  | other

/-- The source-adapter part of processInput: resolves each recognized
input shape to a byte buffer and a declared or sniffed mime type; none
models the unsupported-input throw. -/
def resolveInput (env : Env) : Input → Option (Bytes × Option String)
  | .str s =>
    if jsStartsWith s "http://" || jsStartsWith s "https://" then
      some (env.fetch s)
    else
      some (env.readFile s,
        some (jsOrString (env.mimeLookup s) "application/octet-stream"))
  | .buffer b => some (b, some (detectMimeType env.codec b))
  | .stream chunks =>
    some (chunks.flatten, some (detectMimeType env.codec chunks.flatten))
  | .blob d ty =>
    some (d, some (jsOrString (some ty) "application/octet-stream"))
  | .other => none

/-- The conditional-transcode step of processInput: optimize only when the
resolved type is an image and optimization is not explicitly skipped,
otherwise keep the resolved buffer and mime type unchanged. -/
def applyPipeline (c : Codec) (cfg : Config) (b : Bytes) (mt : Option String) :
    Except PipelineError Asset :=
  if isImage mt && !cfg.skipImageOptimization then
    optimizeImage c cfg b
  else
    .ok ⟨b, mt⟩

/-- processInput: resolve the input shape (throwing on an unrecognized
one), then run the conditional transcode step. -/
def processInput (env : Env) (cfg : Config) (input : Input) :
    Except PipelineError Asset :=
  match resolveInput env input with
  | none => .error .unsupportedInput
  | some (b, mt) => applyPipeline env.codec cfg b mt

/-- FileHandler.handle: construct the configuration from the options, then
process the input. -/
def handle (env : Env) (input : Input) (o : Options) :
    Except PipelineError Asset :=
  processInput env (mkConfig o) input

/-- toBuffer: returns the held buffer. -/
def toBuffer (a : Asset) : Bytes := a.buffer

/-- JavaScript template-literal interpolation of the possibly-null mime
type: null is rendered as the four-character text null. -/
def mimeTypeToJS : Option String → String
  | some s => s
  | none => "null"

/-- The base64 alphabet: the character for a six-bit value. -/
def b64chr (n : Nat) : Char :=
  if n < 26 then Char.ofNat (65 + n)
  else if n < 52 then Char.ofNat (71 + n)
  else if n < 62 then Char.ofNat (n - 4)
  else if n = 62 then '+'
  else '/'

/-- The six-bit value of a base64 alphabet character, none for any
character outside the alphabet. -/
def charVal (c : Char) : Option Nat :=
  if 65 ≤ c.toNat ∧ c.toNat ≤ 90 then some (c.toNat - 65)
  else if 97 ≤ c.toNat ∧ c.toNat ≤ 122 then some (c.toNat - 71)
  else if 48 ≤ c.toNat ∧ c.toNat ≤ 57 then some (c.toNat + 4)
  else if c.toNat = 43 then some 62
  else if c.toNat = 47 then some 63
  else none

/-- Modelled from the spec: standard padded base64 encoding of a byte
sequence, as produced by the platform btoa and by Buffer toString with the
base64 encoding (platform collaborators). -/
def btoaChunks : Bytes → List Char
  | [] => []
  | [b1] => [b64chr (b1 / 4), b64chr (b1 % 4 * 16), '=', '=']
  | [b1, b2] =>
    [b64chr (b1 / 4), b64chr (b1 % 4 * 16 + b2 / 16), b64chr (b2 % 16 * 4), '=']
  | b1 :: b2 :: b3 :: rest =>
    b64chr (b1 / 4) :: b64chr (b1 % 4 * 16 + b2 / 16) ::
    b64chr (b2 % 16 * 4 + b3 / 64) :: b64chr (b3 % 64) :: btoaChunks rest

/-- Modelled from the spec: the platform base64 decoder atob (a platform
collaborator); none models the decode throwing on malformed input.
Trailing groups of two or three characters decode with the leftover bits
discarded, and a final four-character group may carry padding. -/
def atobChunks : List Char → Option Bytes
  | [] => some []
  | [a, b] =>
    match charVal a, charVal b with
    | some va, some vb => some [va * 4 + vb / 16]
    | _, _ => none
  | [a, b, c] =>
    match charVal a, charVal b, charVal c with
    | some va, some vb, some vc => some [va * 4 + vb / 16, vb % 16 * 16 + vc / 4]
    | _, _, _ => none
  | a :: b :: c :: d :: rest =>
    match charVal a, charVal b with
    | some va, some vb =>
      if c = '=' ∧ d = '=' ∧ rest = [] then
        some [va * 4 + vb / 16]
      else if d = '=' ∧ rest = [] then
        match charVal c with
        | some vc => some [va * 4 + vb / 16, vb % 16 * 16 + vc / 4]
        | none => none
      else
        match charVal c, charVal d with
        | some vc, some vd =>
          match atobChunks rest with
          | some tail =>
            some ((va * 4 + vb / 16) :: (vb % 16 * 16 + vc / 4) ::
                  (vc % 4 * 64 + vd) :: tail)
          | none => none
        | _, _ => none
    | _, _ => none
  | _ => none

/-- Buffer toString with the base64 encoding, as a string. -/
def bufferToBase64 (b : Bytes) : String := ⟨btoaChunks b⟩

/-- toBase64: the held buffer as base64 text. -/
def toBase64 (a : Asset) : String := bufferToBase64 a.buffer

/-- toBase64URL: the template literal `data:<mimeType>;base64,<payload>`;
interpolation of a null mime type renders the text null. -/
def toBase64URL (a : Asset) : String :=
  "data:" ++ mimeTypeToJS a.mimeType ++ ";base64," ++ bufferToBase64 a.buffer

/-- Modelled from the spec: a data-URL parser (the round-trip reader the
spec appeals to, not repository code).  It requires the data: scheme,
reads the media type up to the first semicolon, requires the
`;base64,` marker, and base64-decodes the remaining payload. -/
def parseChars (cs : List Char) : Option (String × Bytes) :=
  if ("data:".data).isPrefixOf cs = true then
    if (";base64,".data).isPrefixOf
        ((cs.drop 5).dropWhile (fun c => c != ';')) = true then
      match atobChunks (((cs.drop 5).dropWhile (fun c => c != ';')).drop 8) with
      | some bytes =>
        some (⟨(cs.drop 5).takeWhile (fun c => c != ';')⟩, bytes)
      | none => none
    else none
  else none

/-- Data-URL parsing at the string level. -/
def parseDataURL (s : String) : Option (String × Bytes) := parseChars s.data

/-- isBase64: the base64 format regular expression, groups of four
alphabet characters with an optional final padded group. -/
def b64Groups : List Char → Bool
  | [] => true
  | a :: b :: c :: d :: rest =>
    if (charVal a).isSome && (charVal b).isSome &&
        (charVal c).isSome && (charVal d).isSome then
      b64Groups rest
    else
      rest.isEmpty && (charVal a).isSome && (charVal b).isSome &&
        ((c = '=' && d = '=') || ((charVal c).isSome && d = '='))
  | _ => false

/-- isBase64: an empty string is rejected, then the base64 regular
expression must match, then the string must survive a decode and
re-encode round trip up to padding (all equality signs removed before the
comparison). -/
def isBase64 (s : String) : Bool :=
  if s = "" then false
  else if b64Groups s.data then
    match atobChunks s.data with
    | some bytes =>
      (btoaChunks bytes).filter (fun c => c != '=') ==
        s.data.filter (fun c => c != '=')
    | none => false
  else false

/-- The media-type leading character class of the data-URL regular
expression. -/
def isMediaChar (c : Char) : Bool := c.isAlpha || c.isDigit

/-- The media-subtype character class of the data-URL regular
expression. -/
def isSubtypeChar (c : Char) : Bool :=
  isMediaChar c || c == '-' || c == '.' || c == '+'

/-- The parameter character class of the data-URL regular expression. -/
def isParamChar (c : Char) : Bool :=
  isMediaChar c || c == '-' || c == '_' || c == '=' || c == '.' || c == '+'

/-- The media-type part of the data-URL regular expression: one or more
leading-class characters, a slash, one or more subtype-class characters;
returns the captured media type and the remaining characters. -/
def parseMediaType (cs : List Char) : Option (String × List Char) :=
  if cs.takeWhile isMediaChar = [] then none
  else
    match cs.dropWhile isMediaChar with
    | '/' :: r2 =>
      if r2.takeWhile isSubtypeChar = [] then none
      else
        some (⟨cs.takeWhile isMediaChar ++ '/' :: r2.takeWhile isSubtypeChar⟩,
          r2.dropWhile isSubtypeChar)
    | _ => none

/-- The parameter star followed by the `;base64,` marker of the data-URL
regular expression, with the greedy-then-backtrack preference of the
regular-expression engine: at each semicolon a parameter group is tried
first, and the marker is tried when that fails.  The fuel argument bounds
the recursion depth; any fuel at least the length of the list is enough
because every step consumes at least one character. -/
def matchParamsTail (fuel : Nat) : List Char → Option (List Char)
  | ';' :: rest =>
    match fuel with
    | 0 => none
    | fuel + 1 =>
      (if rest.takeWhile isParamChar = [] then none
       else matchParamsTail fuel (rest.dropWhile isParamChar)).orElse
        (fun _ =>
          if ("base64,".data).isPrefixOf rest = true then some (rest.drop 7)
          else none)
  | _ => none

/-- isBase64DataURL: an empty string is rejected, the string must start
with data:, the data-URL regular expression must match (capturing the
media type and the base64 payload, the payload free of double quotes), an
optionally supplied truthy media-type prefix must match, and the payload
must survive an exact decode and re-encode round trip. -/
def isBase64DataURL (s : String) (pre : Option String) : Bool :=
  if s = "" then false
  else if !jsStartsWith s "data:" then false
  else
    match parseMediaType (s.data.drop 5) with
    | none => false
    | some (mimeType, rest) =>
      match matchParamsTail rest.length rest with
      | none => false
      | some payload =>
        if payload.contains '"' then false
        else if !(match pre with
            | none => true
            | some p => if p = "" then true else jsStartsWith mimeType p) then
          false
        else
          match atobChunks payload with
          | some bytes => btoaChunks bytes == payload
          | none => false

/-- A concrete codec used to evaluate the theorems on closed inputs: a
byte sequence starting with 0 encodes a width, a height and a format. -/
def strToBytes (s : String) : Bytes := s.data.map Char.toNat

/-- Inverse of strToBytes for the concrete codec. -/
def bytesToStr (l : Bytes) : String := ⟨l.map Char.ofNat⟩

/-- The concrete test codec. -/
def testCodec : Codec where
  decode := fun b =>
    match b with
    | 0 :: w :: h :: fs => some ⟨w, h, bytesToStr fs⟩
    | _ => none
  encode := fun _ w h f _ => 0 :: w :: h :: strToBytes f

/-- A concrete environment used to evaluate the theorems. -/
def testEnv : Env where
  codec := testCodec
  fetch := fun _ => ([5], none)
  readFile := fun _ => []
  mimeLookup := fun _ => none

/-- A concrete environment whose fetch returns an empty body and no
content-type header. -/
def testEnvNoCT : Env where
  codec := testCodec
  fetch := fun _ => ([], none)
  readFile := fun _ => []
  mimeLookup := fun _ => none

/-- The empty options object. -/
def optsEmpty : Options := ⟨none, none, none, none, none⟩

/-- The all-default configuration. -/
def cfgDefault : Config := mkConfig optsEmpty

/-! ### Helper lemmas about the base64 encoding -/

/-- Decoding a base64 alphabet character recovers its six-bit value. -/
theorem charVal_b64chr : ∀ n, n < 64 → charVal (b64chr n) = some n := by decide

/-- No base64 alphabet character is the padding character. -/
theorem b64chr_ne_pad : ∀ n, n < 64 → b64chr n ≠ '=' := by decide

/-- The platform base64 decoder inverts the platform base64 encoder on
every sequence of real bytes. -/
theorem atob_btoa : ∀ l : Bytes, (∀ x ∈ l, x < 256) →
    atobChunks (btoaChunks l) = some l
  | [], _ => rfl
  | [b1], h => by
    have hb1 : b1 < 256 := h b1 (by simp)
    have h1 : b1 / 4 < 64 := by omega
    have h2 : b1 % 4 * 16 < 64 := by omega
    simp only [btoaChunks, atobChunks, charVal_b64chr _ h1, charVal_b64chr _ h2]
    rw [if_pos (by simp)]
    have e1 : b1 / 4 * 4 + b1 % 4 * 16 / 16 = b1 := by omega
    rw [e1]
  | [b1, b2], h => by
    have hb1 : b1 < 256 := h b1 (by simp)
    have hb2 : b2 < 256 := h b2 (by simp)
    have h1 : b1 / 4 < 64 := by omega
    have h2 : b1 % 4 * 16 + b2 / 16 < 64 := by omega
    have h3 : b2 % 16 * 4 < 64 := by omega
    simp only [btoaChunks, atobChunks, charVal_b64chr _ h1, charVal_b64chr _ h2,
      charVal_b64chr _ h3]
    rw [if_neg, if_pos (by simp)]
    · have e1 : b1 / 4 * 4 + (b1 % 4 * 16 + b2 / 16) / 16 = b1 := by omega
      have e2 : (b1 % 4 * 16 + b2 / 16) % 16 * 16 + b2 % 16 * 4 / 4 = b2 := by
        omega
      rw [e1, e2]
    · intro hcon
      exact b64chr_ne_pad _ h3 hcon.1
  | b1 :: b2 :: b3 :: rest, h => by
    have hb1 : b1 < 256 := h b1 (by simp)
    have hb2 : b2 < 256 := h b2 (by simp)
    have hb3 : b3 < 256 := h b3 (by simp)
    have ih := atob_btoa rest (fun x hx => h x (by simp [hx]))
    have h1 : b1 / 4 < 64 := by omega
    have h2 : b1 % 4 * 16 + b2 / 16 < 64 := by omega
    have h3 : b2 % 16 * 4 + b3 / 64 < 64 := by omega
    have h4 : b3 % 64 < 64 := by omega
    cases rest with
    | nil =>
      simp only [btoaChunks, atobChunks, charVal_b64chr _ h1, charVal_b64chr _ h2,
        charVal_b64chr _ h3, charVal_b64chr _ h4]
      rw [if_neg, if_neg]
      · have e1 : b1 / 4 * 4 + (b1 % 4 * 16 + b2 / 16) / 16 = b1 := by omega
        have e2 : (b1 % 4 * 16 + b2 / 16) % 16 * 16 +
            (b2 % 16 * 4 + b3 / 64) / 4 = b2 := by omega
        have e3 : (b2 % 16 * 4 + b3 / 64) % 4 * 64 + b3 % 64 = b3 := by omega
        rw [e1, e2, e3]
      · intro hcon
        exact b64chr_ne_pad _ h4 hcon.1
      · intro hcon
        exact b64chr_ne_pad _ h3 hcon.1
    | cons b4 rest2 =>
      simp only [btoaChunks, atobChunks, charVal_b64chr _ h1, charVal_b64chr _ h2,
        charVal_b64chr _ h3, charVal_b64chr _ h4]
      rw [if_neg, if_neg]
      · simp only [ih]
        have e1 : b1 / 4 * 4 + (b1 % 4 * 16 + b2 / 16) / 16 = b1 := by omega
        have e2 : (b1 % 4 * 16 + b2 / 16) % 16 * 16 +
            (b2 % 16 * 4 + b3 / 64) / 4 = b2 := by omega
        have e3 : (b2 % 16 * 4 + b3 / 64) % 4 * 64 + b3 % 64 = b3 := by omega
        rw [e1, e2, e3]
      · intro hcon
        exact b64chr_ne_pad _ h4 hcon.1
      · intro hcon
        exact b64chr_ne_pad _ h3 hcon.1

/-! ### Helper lemmas about character lists and the data-URL parser -/

/-- A list is a prefix of itself followed by anything. -/
theorem isPrefixOf_append_self : ∀ l r : List Char, l.isPrefixOf (l ++ r) = true
  | [], _ => by simp [List.isPrefixOf]
  | c :: l, r => by
    simp [List.isPrefixOf, isPrefixOf_append_self l r]

/-- The parser applied to a well-shaped data URL recovers the media type
and the decoded payload, provided the media type contains no semicolon. -/
theorem parseChars_correct (mtl : List Char) (bs : Bytes)
    (hsemi : ∀ c ∈ mtl, c ≠ ';') (hbs : ∀ x ∈ bs, x < 256) :
    parseChars ("data:".data ++
        (mtl ++ (";base64,".data ++ btoaChunks bs))) =
      some (⟨mtl⟩, bs) := by
  show parseChars ("data:".data ++
      (mtl ++ (';' :: ("base64,".data ++ btoaChunks bs)))) = some (⟨mtl⟩, bs)
  have hp : ∀ c ∈ mtl, ((fun c => c != ';') c) = true := fun c hc => by
    simpa using hsemi c hc
  have h1 : ("data:".data).isPrefixOf ("data:".data ++
      (mtl ++ (';' :: ("base64,".data ++ btoaChunks bs)))) = true :=
    isPrefixOf_append_self _ _
  have hdrop : ("data:".data ++
      (mtl ++ (';' :: ("base64,".data ++ btoaChunks bs)))).drop 5
      = mtl ++ (';' :: ("base64,".data ++ btoaChunks bs)) :=
    List.drop_left' (by decide)
  have hsepEq : (';' :: ("base64,".data ++ btoaChunks bs))
      = ";base64,".data ++ btoaChunks bs := rfl
  have htake : (mtl ++ (';' :: ("base64,".data ++
      btoaChunks bs))).takeWhile (fun c => c != ';') = mtl := by
    rw [List.takeWhile_append_of_pos hp]
    simp
  have hdw : (mtl ++ (';' :: ("base64,".data ++
      btoaChunks bs))).dropWhile (fun c => c != ';')
      = ';' :: ("base64,".data ++ btoaChunks bs) := by
    rw [List.dropWhile_append_of_pos hp]
    simp
  have h2 : (";base64,".data).isPrefixOf
      (';' :: ("base64,".data ++ btoaChunks bs)) = true := by
    rw [hsepEq]
    exact isPrefixOf_append_self _ _
  have hdrop8 : (';' :: ("base64,".data ++ btoaChunks bs)).drop 8
      = btoaChunks bs := by
    rw [hsepEq]
    exact List.drop_left' (by decide)
  simp only [parseChars, h1, hdrop, hdw, htake, h2, hdrop8, atob_btoa bs hbs,
    if_true]

/-- String-level round trip: parsing the data-URL text built from a
semicolon-free mime type and a base64 payload of real bytes recovers
exactly the mime type and the bytes. -/
theorem parseDataURL_correct (mt : String) (bs : Bytes)
    (hsemi : ';' ∉ mt.data) (hbs : ∀ x ∈ bs, x < 256) :
    parseDataURL ("data:" ++ mt ++ ";base64," ++ bufferToBase64 bs)
      = some (mt, bs) := by
  have happ : ∀ s t : String, (s ++ t).data = s.data ++ t.data := fun _ _ => rfl
  have hb64 : (bufferToBase64 bs).data = btoaChunks bs := rfl
  have harg : ("data:" ++ mt ++ ";base64," ++ bufferToBase64 bs).data
      = "data:".data ++ (mt.data ++ (";base64,".data ++ btoaChunks bs)) := by
    simp only [happ, hb64, List.append_assoc]
  show parseChars ("data:" ++ mt ++ ";base64," ++ bufferToBase64 bs).data = _
  rw [harg]
  have hres := parseChars_correct mt.data bs
    (fun c hc he => hsemi (he ▸ hc)) hbs
  rw [hres]

/-! ### Helper lemmas about the fit-inside resize -/

/-- The fit-inside resize never enlarges: both produced dimensions are at
most the originals. -/
theorem fitInside_le (w h maxW maxH : Nat) (hw : 0 < w) (hh : 0 < h) :
    (fitInside w h maxW maxH).1 ≤ w ∧ (fitInside w h maxW maxH).2 ≤ h := by
  unfold fitInside
  split_ifs with h1 h2
  · exact ⟨le_refl w, le_refl h⟩
  · have hfired : maxW < w ∨ maxH < h := by omega
    have hmaxH : maxH < h := by
      rcases hfired with hc | hc
      · by_contra hcon
        push_neg at hcon
        have t1 : w * h ≤ w * maxH := mul_le_mul_left' hcon w
        have t2 : h * maxW < h * w := mul_lt_mul_of_pos_left hc hh
        have tbad : w * maxH < w * maxH := by
          calc w * maxH ≤ h * maxW := h2
            _ < h * w := t2
            _ = w * h := Nat.mul_comm h w
            _ ≤ w * maxH := t1
        exact absurd tbad (lt_irrefl _)
      · exact hc
    constructor
    · have t : w * maxH ≤ w * h := mul_le_mul_left' (le_of_lt hmaxH) w
      calc w * maxH / h ≤ w * h / h := Nat.div_le_div_right t
        _ = w := Nat.mul_div_cancel w hh
    · exact le_of_lt hmaxH
  · have h2lt : h * maxW < w * maxH := lt_of_not_le h2
    have hmaxW : maxW < w := by
      rcases Nat.eq_zero_or_pos maxW with hz | hpos
      · omega
      by_contra hcon
      push_neg at hcon
      have hc : maxH < h := by omega
      have t1 : w * maxH ≤ maxW * maxH := mul_le_mul_right' hcon maxH
      have t2 : maxW * maxH < maxW * h := mul_lt_mul_of_pos_left hc hpos
      have tbad : h * maxW < h * maxW := by
        calc h * maxW < w * maxH := h2lt
          _ ≤ maxW * maxH := t1
          _ < maxW * h := t2
          _ = h * maxW := Nat.mul_comm maxW h
      exact absurd tbad (lt_irrefl _)
    constructor
    · exact le_of_lt hmaxW
    · have t : h * maxW ≤ h * w := mul_le_mul_left' (le_of_lt hmaxW) h
      calc h * maxW / w ≤ h * w / w := Nat.div_le_div_right t
        _ = h := Nat.mul_div_cancel h hw

/-- When the original dimensions exceed the bounds, the fit-inside resize
produces dimensions inside both bounds. -/
theorem fitInside_bounds (w h maxW maxH : Nat) (hw : 0 < w) (hh : 0 < h) :
    (fitInside w h maxW maxH).1 ≤ maxW ∧ (fitInside w h maxW maxH).2 ≤ maxH := by
  unfold fitInside
  split_ifs with h1 h2
  · omega
  · constructor
    · calc w * maxH / h ≤ h * maxW / h := Nat.div_le_div_right h2
        _ = maxW := Nat.mul_div_cancel_left maxW hh
    · exact le_refl maxH
  · have h2le : h * maxW ≤ w * maxH := le_of_lt (lt_of_not_le h2)
    constructor
    · exact le_refl maxW
    · calc h * maxW / w ≤ w * maxH / w := Nat.div_le_div_right h2le
        _ = maxH := Nat.mul_div_cancel_left maxH hw

/-- The fit-inside resize preserves the aspect ratio up to floor rounding:
the two cross products differ by less than one original dimension. -/
theorem fitInside_ratio (w h maxW maxH : Nat) (hw : 0 < w) (hh : 0 < h) :
    (fitInside w h maxW maxH).1 * h ≤ (fitInside w h maxW maxH).2 * w + w ∧
    (fitInside w h maxW maxH).2 * w ≤ (fitInside w h maxW maxH).1 * h + h := by
  unfold fitInside
  split_ifs with h1 h2
  · constructor
    · calc w * h = h * w := Nat.mul_comm w h
        _ ≤ h * w + w := Nat.le_add_right _ _
    · calc h * w = w * h := Nat.mul_comm h w
        _ ≤ w * h + h := Nat.le_add_right _ _
  · constructor
    · calc w * maxH / h * h ≤ w * maxH := Nat.div_mul_le_self _ _
        _ = maxH * w := Nat.mul_comm w maxH
        _ ≤ maxH * w + w := Nat.le_add_right _ _
    · have hmod : w * maxH % h < h := Nat.mod_lt _ hh
      calc maxH * w = w * maxH := Nat.mul_comm maxH w
        _ = h * (w * maxH / h) + w * maxH % h := (Nat.div_add_mod _ _).symm
        _ ≤ h * (w * maxH / h) + h := Nat.add_le_add_left (le_of_lt hmod) _
        _ = w * maxH / h * h + h := by rw [Nat.mul_comm]
  · constructor
    · have hmod : h * maxW % w < w := Nat.mod_lt _ hw
      calc maxW * h = h * maxW := Nat.mul_comm maxW h
        _ = w * (h * maxW / w) + h * maxW % w := (Nat.div_add_mod _ _).symm
        _ ≤ w * (h * maxW / w) + w := Nat.add_le_add_left (le_of_lt hmod) _
        _ = h * maxW / w * w + w := by rw [Nat.mul_comm]
    · calc h * maxW / w * w ≤ h * maxW := Nat.div_mul_le_self _ _
        _ = maxW * h := Nat.mul_comm h maxW
        _ ≤ maxW * h + h := Nat.le_add_right _ _

/-! ### The claims -/

/-- C1: the optimization branch fires if and only if the resolved mimeType
starts with image/ and skipImageOptimization is false; in every other case
(any non-image input, or any image input with skipImageOptimization true)
the pipeline step is an identity transform: toBuffer returns exactly the
resolved bytes and the mimeType equals the sniffed or declared type. -/
theorem c1_optimization_branch (c : Codec) (cfg : Config) (b : Bytes)
    (mt : Option String) :
    ((isImage mt && !cfg.skipImageOptimization) = true →
      applyPipeline c cfg b mt = optimizeImage c cfg b)
  ∧ ((isImage mt && !cfg.skipImageOptimization) = false →
      applyPipeline c cfg b mt = .ok ⟨b, mt⟩ ∧
      toBuffer ⟨b, mt⟩ = b ∧ Asset.mimeType ⟨b, mt⟩ = mt)
  ∧ ((isImage mt && !cfg.skipImageOptimization) = true ↔
      (∃ s, mt = some s ∧ jsStartsWith s "image/" = true) ∧
        cfg.skipImageOptimization = false) := by
  refine ⟨?_, ?_, ?_⟩
  · intro hc
    simp [applyPipeline, hc]
  · intro hc
    exact ⟨by simp [applyPipeline, hc], rfl, rfl⟩
  · cases mt with
    | none => simp [isImage]
    | some s => simp [isImage]

/-- Witness for C1 at a concrete non-image type: the pipeline step is the
identity. -/
theorem c1_optimization_branch_witness :
    applyPipeline testCodec cfgDefault [9] (some "application/pdf") =
      .ok ⟨[9], some "application/pdf"⟩ :=
  ((c1_optimization_branch testCodec cfgDefault [9]
    (some "application/pdf")).2.1 (by decide)).1

/-- C2: during optimization a resize is requested only when the decoded
width or height exceeds its configured bound; the fit-inside resize never
enlarges, lands inside both bounds, and preserves the aspect ratio up to
rounding; an image already within both bounds keeps its dimensions (no
resize) yet is still re-encoded with the type rewritten, and with a codec
that honours requested dimensions its post-transcode dimensions equal the
originals. -/
theorem c2_resize_policy (c : Codec) (cfg : Config) (b : Bytes) (m : Meta)
    (hdec : c.decode b = some m) (hw : 0 < m.width) (hh : 0 < m.height) :
    optimizeImage c cfg b =
      .ok ⟨c.encode b (targetDims cfg m.width m.height).1
        (targetDims cfg m.width m.height).2 cfg.format cfg.quality,
        some ("image/" ++ cfg.format)⟩
  ∧ (m.width ≤ cfg.maxWidth → m.height ≤ cfg.maxHeight →
      targetDims cfg m.width m.height = (m.width, m.height))
  ∧ ((targetDims cfg m.width m.height).1 ≤ m.width ∧
      (targetDims cfg m.width m.height).2 ≤ m.height)
  ∧ (cfg.maxWidth < m.width ∨ cfg.maxHeight < m.height →
      (targetDims cfg m.width m.height).1 ≤ cfg.maxWidth ∧
      (targetDims cfg m.width m.height).2 ≤ cfg.maxHeight)
  ∧ ((targetDims cfg m.width m.height).1 * m.height ≤
        (targetDims cfg m.width m.height).2 * m.width + m.width ∧
      (targetDims cfg m.width m.height).2 * m.width ≤
        (targetDims cfg m.width m.height).1 * m.height + m.height)
  ∧ ((∀ b2 w2 h2 q2, c.decode (c.encode b2 w2 h2 cfg.format q2) =
        some ⟨w2, h2, cfg.format⟩) →
      m.width ≤ cfg.maxWidth → m.height ≤ cfg.maxHeight →
      ∃ out, optimizeImage c cfg b = .ok out ∧
        c.decode out.buffer = some ⟨m.width, m.height, cfg.format⟩ ∧
        out.mimeType = some ("image/" ++ cfg.format)) := by
  have h1 : optimizeImage c cfg b =
      .ok ⟨c.encode b (targetDims cfg m.width m.height).1
        (targetDims cfg m.width m.height).2 cfg.format cfg.quality,
        some ("image/" ++ cfg.format)⟩ := by
    simp [optimizeImage, hdec]
  have h2 : m.width ≤ cfg.maxWidth → m.height ≤ cfg.maxHeight →
      targetDims cfg m.width m.height = (m.width, m.height) := by
    intro hA hB
    unfold targetDims
    rw [if_neg]
    omega
  refine ⟨h1, h2, ?_, ?_, ?_, ?_⟩
  · unfold targetDims
    split_ifs with hf
    · exact fitInside_le _ _ _ _ hw hh
    · exact ⟨le_refl _, le_refl _⟩
  · intro hf
    unfold targetDims
    rw [if_pos hf]
    exact fitInside_bounds _ _ _ _ hw hh
  · unfold targetDims
    split_ifs with hf
    · exact fitInside_ratio _ _ _ _ hw hh
    · constructor
      · calc m.width * m.height = m.height * m.width := Nat.mul_comm _ _
          _ ≤ m.height * m.width + m.width := Nat.le_add_right _ _
      · calc m.height * m.width = m.width * m.height := Nat.mul_comm _ _
          _ ≤ m.width * m.height + m.height := Nat.le_add_right _ _
  · intro hrt hA hB
    refine ⟨_, h1, ?_, rfl⟩
    have hdims := h2 hA hB
    rw [hdims]
    exact hrt b m.width m.height cfg.quality

/-- Witness for C2 at a concrete in-bounds image: conversion applies with
the original dimensions. -/
theorem c2_resize_policy_witness :
    optimizeImage testCodec cfgDefault [0, 3, 4] =
      .ok ⟨testCodec.encode [0, 3, 4] (targetDims cfgDefault 3 4).1
        (targetDims cfgDefault 3 4).2 cfgDefault.format cfgDefault.quality,
        some ("image/" ++ cfgDefault.format)⟩ :=
  (c2_resize_policy testCodec cfgDefault [0, 3, 4] ⟨3, 4, ""⟩
    (by decide) (by decide) (by decide)).1

/-- C3: whenever the optimization branch completes, the asset mimeType is
unconditionally rewritten to image/ plus the configured format, and the
buffer is the re-encoded output (re-encoding is never skipped, independent
of the source format). -/
theorem c3_format_rewrite (c : Codec) (cfg : Config) (b : Bytes) (a : Asset)
    (h : optimizeImage c cfg b = .ok a) :
    a.mimeType = some ("image/" ++ cfg.format) ∧
    ∃ m, c.decode b = some m ∧
      a.buffer = c.encode b (targetDims cfg m.width m.height).1
        (targetDims cfg m.width m.height).2 cfg.format cfg.quality := by
  cases hdec : c.decode b with
  | none => simp [optimizeImage, hdec] at h
  | some m =>
    simp only [optimizeImage, hdec] at h
    cases h
    exact ⟨rfl, m, rfl, rfl⟩

/-- Witness for C3 at a concrete image input. -/
theorem c3_format_rewrite_witness :
    Asset.mimeType ⟨[0, 3, 4, 106, 112, 101, 103], some "image/jpeg"⟩ =
      some ("image/" ++ cfgDefault.format) ∧
    ∃ m, testCodec.decode [0, 3, 4] = some m ∧
      Asset.buffer ⟨[0, 3, 4, 106, 112, 101, 103], some "image/jpeg"⟩ =
        testCodec.encode [0, 3, 4] (targetDims cfgDefault m.width m.height).1
          (targetDims cfgDefault m.width m.height).2 cfgDefault.format
          cfgDefault.quality :=
  c3_format_rewrite testCodec cfgDefault [0, 3, 4]
    ⟨[0, 3, 4, 106, 112, 101, 103], some "image/jpeg"⟩ (by decide)

/-- C4: a remote fetch whose response has no content-type header stores a
null mimeType (no sniffer fallback), isImage is false on it, and the
transcode step is skipped whatever the body bytes are: the pipeline
returns them unchanged. -/
theorem c4_missing_content_type (env : Env) (cfg : Config) (s : String)
    (b : Bytes)
    (hurl : jsStartsWith s "http://" = true ∨ jsStartsWith s "https://" = true)
    (hf : env.fetch s = (b, none)) :
    processInput env cfg (.str s) = .ok ⟨b, none⟩ ∧ isImage none = false := by
  constructor
  · have hcond : (jsStartsWith s "http://" || jsStartsWith s "https://")
        = true := by
      rcases hurl with h | h <;> simp [h]
    simp [processInput, resolveInput, hcond, hf, applyPipeline, isImage]
  · rfl

/-- Witness for C4 at a concrete header-less fetch. -/
theorem c4_missing_content_type_witness :
    processInput testEnv cfgDefault (.str "http://x") = .ok ⟨[5], none⟩ ∧
    isImage none = false :=
  c4_missing_content_type testEnv cfgDefault "http://x" [5]
    (Or.inl (by decide)) rfl

/-- C5: the sniffer is a total function of the bytes (it never throws):
when the codec recognizes an image container it returns image/ plus the
detected format, and on every other input it returns exactly
application/octet-stream. -/
theorem c5_sniffer_total (c : Codec) (b : Bytes) :
    (∃ m, c.decode b = some m ∧ detectMimeType c b = "image/" ++ m.format) ∨
    (c.decode b = none ∧ detectMimeType c b = "application/octet-stream") := by
  cases hdec : c.decode b with
  | none => exact Or.inr ⟨rfl, by simp [detectMimeType, hdec]⟩
  | some m => exact Or.inl ⟨m, rfl, by simp [detectMimeType, hdec]⟩

/-- C6: an input value of none of the five recognized shapes makes
resolution fail, and handle and processInput fail immediately with the
unsupported-input error, producing no result. -/
theorem c6_unsupported_input (env : Env) (cfg : Config) (o : Options) :
    processInput env cfg Input.other = .error .unsupportedInput ∧
    handle env Input.other o = .error .unsupportedInput ∧
    resolveInput env Input.other = none :=
  ⟨rfl, rfl, rfl⟩

/-- C7: bytes carrying an image type tag that the codec cannot decode make
the pipeline fail with the codec error, which propagates to the caller
(also through processInput for a blob input); it never silently falls back
to the original bytes. -/
theorem c7_codec_error (env : Env) (cfg : Config) (b : Bytes) (s : String)
    (hs : jsStartsWith s "image/" = true)
    (hskip : cfg.skipImageOptimization = false)
    (hne : s ≠ "")
    (hdec : env.codec.decode b = none) :
    applyPipeline env.codec cfg b (some s) = .error .codecError ∧
    processInput env cfg (.blob b s) = .error .codecError := by
  have hap : applyPipeline env.codec cfg b (some s) = .error .codecError := by
    simp [applyPipeline, isImage, hs, hskip, optimizeImage, hdec]
  refine ⟨hap, ?_⟩
  simp [processInput, resolveInput, jsOrString, hne, hap]

/-- Witness for C7 at a concrete undecodable blob tagged image/png. -/
theorem c7_codec_error_witness :
    applyPipeline testEnv.codec cfgDefault [1, 2, 3] (some "image/png") =
      .error .codecError ∧
    processInput testEnv cfgDefault (.blob [1, 2, 3] "image/png") =
      .error .codecError :=
  c7_codec_error testEnv cfgDefault [1, 2, 3] "image/png" (by decide)
    (by decide) (by decide) (by decide)

/-- C8 counterexample: a completed asset can carry a null mimeType (a
header-less remote fetch), and then toBase64URL interpolates the literal
text null, so a data-URL parse yields the string null, which is not the
asset's (null) mimeType: the round trip fails as universally stated. -/
theorem c8_null_mime_counterexample :
    processInput testEnvNoCT cfgDefault (.str "http://x") = .ok ⟨[], none⟩ ∧
    Asset.mimeType ⟨[], none⟩ = none ∧
    toBase64URL ⟨[], none⟩ = "data:null;base64," ∧
    parseDataURL (toBase64URL ⟨[], none⟩) = some ("null", []) ∧
    (none : Option String) ≠ some "null" := by decide

/-- C8 amended: for every completed asset whose mimeType is a non-null
string containing no semicolon and whose buffer holds real bytes,
toBase64URL has the exact shape data: plus mimeType plus the base64
marker plus the base64 payload, and a data-URL parse recovers exactly the
asset's mimeType and bytes. -/
theorem c8_roundtrip_amended (a : Asset) (mt : String)
    (hmt : a.mimeType = some mt) (hsemi : ';' ∉ mt.data)
    (hbytes : ∀ x ∈ a.buffer, x < 256) :
    toBase64URL a = "data:" ++ mt ++ ";base64," ++ bufferToBase64 a.buffer ∧
    parseDataURL (toBase64URL a) = some (mt, toBuffer a) := by
  have h1 : toBase64URL a
      = "data:" ++ mt ++ ";base64," ++ bufferToBase64 a.buffer := by
    simp [toBase64URL, hmt, mimeTypeToJS]
  refine ⟨h1, ?_⟩
  rw [h1]
  exact parseDataURL_correct mt a.buffer hsemi hbytes

/-- Witness for the amended C8 at a concrete image/png asset. -/
theorem c8_roundtrip_amended_witness :
    toBase64URL ⟨[104, 105], some "image/png"⟩ =
      "data:" ++ "image/png" ++ ";base64," ++ bufferToBase64 [104, 105] ∧
    parseDataURL (toBase64URL ⟨[104, 105], some "image/png"⟩) =
      some ("image/png", toBuffer ⟨[104, 105], some "image/png"⟩) :=
  c8_roundtrip_amended ⟨[104, 105], some "image/png"⟩ "image/png" rfl
    (by decide) (by decide)

/-- C9: the standalone classifiers satisfy the four test vectors of the
specification. -/
theorem c9_validator_vectors :
    isBase64 "not base64!!" = false ∧
    isBase64 "aGVsbG8=" = true ∧
    isBase64DataURL "data:image/png;base64,aGVsbG8=" (some "image/") = true ∧
    isBase64DataURL "data:text/plain;base64,aGVsbG8=" (some "image/")
      = false := by decide

/-- C10: every falsy supplied option value (absent, zero, empty string,
false) is silently replaced by its default; in particular a quality of 0
becomes 90 and a maxWidth of 0 becomes 500, while non-falsy values are
honoured. -/
theorem c10_falsy_defaults (o : Options) :
    ((o.maxWidth = none ∨ o.maxWidth = some 0) → (mkConfig o).maxWidth = 500)
  ∧ ((o.maxHeight = none ∨ o.maxHeight = some 0) →
      (mkConfig o).maxHeight = 500)
  ∧ ((o.quality = none ∨ o.quality = some 0) → (mkConfig o).quality = 90)
  ∧ ((o.format = none ∨ o.format = some "") → (mkConfig o).format = "jpeg")
  ∧ ((o.skipImageOptimization = none ∨ o.skipImageOptimization = some false) →
      (mkConfig o).skipImageOptimization = false)
  ∧ (∀ n, o.maxWidth = some n → n ≠ 0 → (mkConfig o).maxWidth = n)
  ∧ (∀ n, o.quality = some n → n ≠ 0 → (mkConfig o).quality = n) := by
  refine ⟨?_, ?_, ?_, ?_, ?_, ?_, ?_⟩
  · rintro (h | h) <;> simp [mkConfig, jsOrNat, h]
  · rintro (h | h) <;> simp [mkConfig, jsOrNat, h]
  · rintro (h | h) <;> simp [mkConfig, jsOrNat, h]
  · rintro (h | h) <;> simp [mkConfig, jsOrString, h]
  · rintro (h | h) <;> simp [mkConfig, jsOrBool, h]
  · intro n hn hnz
    simp [mkConfig, jsOrNat, hn, hnz]
  · intro n hn hnz
    simp [mkConfig, jsOrNat, hn, hnz]

/-- Witness for C10 at a fully falsy options record. -/
theorem c10_falsy_defaults_witness :
    (mkConfig ⟨some 0, some 0, some 0, some "", some false⟩).maxWidth = 500 ∧
    (mkConfig ⟨some 0, some 0, some 0, some "", some false⟩).quality = 90 :=
  ⟨(c10_falsy_defaults ⟨some 0, some 0, some 0, some "", some false⟩).1
      (Or.inr rfl),
    (c10_falsy_defaults ⟨some 0, some 0, some 0, some "", some false⟩).2.2.1
      (Or.inr rfl)⟩

end FileToUrl
